import Mathlib

/-!
Shallow embedding of the flash-backed EEPROM emulation in
src/platforms/pico/eeprom.c (QMK RP2040 port).

The persistent region is modelled as a function from half-word offsets
(relative to FEE_PAGE_BASE_ADDRESS) to 16-bit values; the RAM image
DataBuf as a function from byte addresses to byte values; empty_slot as a
half-word offset into the persistent region.  FLASH_ProgramHalfWord is
modelled as an always-successful point update (driver failures are out of
scope of the properties below).  Machine integers are Nat with explicit
truncations at the places where the C performs a narrowing conversion.
-/

namespace Fee

/-- Modelled from the spec: the FLASH_Status codes are declared in
platforms/pico/flash_pico.h, which is not among the sources.  The spec
(design notes) distinguishes the status 0 (meaning "not attempted"),
FLASH_COMPLETE, and error codes such as FLASH_BAD_ADDRESS, so the three
must be pairwise distinct; the concrete numerals follow the usual
STM32-style FLASH_Status enum. -/
def FLASH_COMPLETE : Nat := 5

/-- Modelled from the spec: see FLASH_COMPLETE. -/
def FLASH_BAD_ADDRESS : Nat := 7

/-- FEE_MAGIC_DWORD from eeprom.c. -/
def FEE_MAGIC_DWORD : Nat := 0x20400FEE

/-- FEE_BYTE_RANGE from eeprom.c. -/
def FEE_BYTE_RANGE : Nat := 0x80

/-- FEE_EMPTY_WORD from eeprom.c. -/
def FEE_EMPTY_WORD : Nat := 0xFFFF

/-- Compile-time configuration: FEE_DENSITY_BYTES and FEE_WRITE_LOG_BYTES.
The derived layout offsets follow the defines in eeprom.c. -/
structure FeeCfg where
  density : Nat
  logBytes : Nat

/-- Half-word offset (from FEE_PAGE_BASE_ADDRESS) of
FEE_WRITE_LOG_BASE_ADDRESS = FEE_COMPACTED_LAST_ADDRESS. -/
def FeeCfg.logBase (c : FeeCfg) : Nat := c.density / 2

/-- Half-word offset of FEE_WRITE_LOG_LAST_ADDRESS. -/
def FeeCfg.logLast (c : FeeCfg) : Nat := c.density / 2 + c.logBytes / 2

/-- Engine state: the RAM image DataBuf (byte addressed), the persistent
flash region (half-word offsets from FEE_PAGE_BASE_ADDRESS), and the
empty_slot pointer as a half-word offset. -/
structure EEState where
  ram : Nat → Nat
  flash : Nat → Nat
  emptySlot : Nat

/-- Pointwise function update. -/
def upd (f : Nat → Nat) (i v : Nat) : Nat → Nat := fun j => if j = i then v else f j

/-- One's complement of a 16-bit value (the C operator ~ on uint16_t). -/
def compl16 (v : Nat) : Nat := 0xFFFF - v

/-- Little-endian half-word view of DataBuf at byte address a
(the C reads *(uint16_t *)(&DataBuf[a]) at an even a). -/
def hwAt (ram : Nat → Nat) (a : Nat) : Nat := ram a + 256 * ram (a + 1)

/-- Store a half-word into DataBuf at byte address a (little endian). -/
def setHW (ram : Nat → Nat) (a v : Nat) : Nat → Nat :=
  upd (upd ram a (v % 256)) (a + 1) (v / 256 % 256)

/-- eeprom_clear from eeprom.c: erase every page of the persistent region,
program the two magic half-words at the top of the write log, and set
empty_slot = FEE_WRITE_LOG_BASE_ADDRESS.  (The C erases FEE_PAGE_COUNT
pages, which cover at least the snapshot plus the write log; offsets past
logLast are never read by the engine, so the model erases [0, logLast).) -/
def eeprom_clear (c : FeeCfg) (s : EEState) : EEState :=
  let erased : Nat → Nat := fun i => if i < c.logLast then FEE_EMPTY_WORD else s.flash i
  let f1 := upd erased c.logBase (FEE_MAGIC_DWORD % 65536)
  let f2 := upd f1 (c.logBase + 1) (FEE_MAGIC_DWORD / 65536)
  { ram := s.ram, flash := f2, emptySlot := c.logBase }

/-- eeprom_compact from eeprom.c: clear, then program the one's complement
of every non-zero RAM half-word into the snapshot region.  The returned
status is FLASH_COMPLETE (the modelled driver always succeeds). -/
def eeprom_compact (c : FeeCfg) (s : EEState) : Nat × EEState :=
  let s1 := eeprom_clear c s
  let f : Nat → Nat := fun i =>
    if i < c.density / 2 then
      if hwAt s.ram (2 * i) ≠ 0 then compl16 (hwAt s.ram (2 * i)) else s1.flash i
    else s1.flash i
  (FLASH_COMPLETE, { ram := s1.ram, flash := f, emptySlot := s1.emptySlot })

/-- eeprom_write_direct_entry from eeprom.c.  Returns 0 when the snapshot
half-word is already programmed (so the caller appends a log entry). -/
def eeprom_write_direct_entry (s : EEState) (address : Nat) : Nat × EEState :=
  let dOff := (address &&& 0xFFFE) / 2
  if s.flash dOff = FEE_EMPTY_WORD then
    let value := compl16 (hwAt s.ram (address &&& 0xFFFE))
    if value = FEE_EMPTY_WORD then (FLASH_COMPLETE, s)
    else (FLASH_COMPLETE, { s with flash := upd s.flash dOff value })
  else (0, s)

/-- eeprom_write_log_word_entry from eeprom.c; address is even.  Values 0
and 1 use a one-word encoding; otherwise the address (biased by
FEE_BYTE_RANGE, with uint16_t wraparound) is followed by the complemented
value.  When the log lacks room for the entry, compaction runs instead. -/
def eeprom_write_log_word_entry (c : FeeCfg) (s : EEState) (address : Nat) : Nat × EEState :=
  let value := hwAt s.ram address
  if value ≤ 1 then
    if s.emptySlot > c.logLast - 1 then eeprom_compact c s
    else
      let entry := (address >>> 1) ||| (0x8000 ||| (value <<< 13))
      (FLASH_COMPLETE,
        { s with flash := upd s.flash s.emptySlot (entry % 65536), emptySlot := s.emptySlot + 1 })
  else
    if s.emptySlot > c.logLast - 2 then eeprom_compact c s
    else
      let address2 := (address + 65536 - FEE_BYTE_RANGE) % 65536
      let entry := (address2 >>> 1) ||| (0x8000 ||| 0x6000)
      let f1 := upd s.flash s.emptySlot (entry % 65536)
      let f2 := upd f1 (s.emptySlot + 1) (compl16 value)
      (FLASH_COMPLETE, { s with flash := f2, emptySlot := s.emptySlot + 2 })

/-- eeprom_write_log_byte_entry from eeprom.c: pack address and value into
one half-word; compaction when the log is full. -/
def eeprom_write_log_byte_entry (c : FeeCfg) (s : EEState) (address : Nat) : Nat × EEState :=
  if s.emptySlot ≥ c.logLast then eeprom_compact c s
  else
    let value := ((address <<< 8) ||| s.ram address) % 65536
    (FLASH_COMPLETE,
      { s with flash := upd s.flash s.emptySlot value, emptySlot := s.emptySlot + 1 })

/-- EEPROM_WriteDataByte from eeprom.c.  address and dataByte stand for the
C uint16_t / uint8_t parameters; theorems assume them in range. -/
def EEPROM_WriteDataByte (c : FeeCfg) (s : EEState) (address dataByte : Nat) : Nat × EEState :=
  if address ≥ c.density then (FLASH_BAD_ADDRESS, s)
  else if s.ram address = dataByte then (0, s)
  else
    let s1 : EEState := { s with ram := upd s.ram address dataByte }
    let r := eeprom_write_direct_entry s1 address
    if r.1 = 0 then
      if address < FEE_BYTE_RANGE then eeprom_write_log_byte_entry c r.2 address
      else eeprom_write_log_word_entry c r.2 (address &&& 0xFFFE)
    else r

/-- EEPROM_WriteDataWord from eeprom.c.  Odd addresses split into two byte
writes; even addresses below FEE_BYTE_RANGE fall back to one byte entry
per changed byte. -/
def EEPROM_WriteDataWord (c : FeeCfg) (s : EEState) (address dataWord : Nat) : Nat × EEState :=
  if address ≥ c.density then (FLASH_BAD_ADDRESS, s)
  else if address % 2 = 1 then
    let r1 := EEPROM_WriteDataByte c s address (dataWord % 256)
    let r2 := EEPROM_WriteDataByte c r1.2 (address + 1) ((dataWord >>> 8) % 256)
    (if r2.1 ≠ FLASH_COMPLETE then r2.1 else r1.1, r2.2)
  else if hwAt s.ram address = dataWord then (0, s)
  else
    let oldValue := hwAt s.ram address
    let s1 : EEState := { s with ram := setHW s.ram address dataWord }
    let r := eeprom_write_direct_entry s1 address
    if r.1 = 0 then
      if address < FEE_BYTE_RANGE then
        let r1 := if oldValue % 256 ≠ dataWord % 256
                  then eeprom_write_log_byte_entry c r.2 address
                  else (FLASH_COMPLETE, r.2)
        let r2 := if oldValue >>> 8 ≠ dataWord >>> 8
                  then eeprom_write_log_byte_entry c r1.2 (address + 1)
                  else (FLASH_COMPLETE, r1.2)
        (if r2.1 ≠ FLASH_COMPLETE then r2.1 else r1.1, r2.2)
      else eeprom_write_log_word_entry c r.2 address
    else r

/-- EEPROM_ReadDataByte from eeprom.c. -/
def EEPROM_ReadDataByte (c : FeeCfg) (s : EEState) (address : Nat) : Nat :=
  if address < c.density then s.ram address else 0xFF

/-- EEPROM_ReadDataWord from eeprom.c: note the bound density - 1. -/
def EEPROM_ReadDataWord (c : FeeCfg) (s : EEState) (address : Nat) : Nat :=
  if address < c.density - 1 then
    if address % 2 = 1 then (s.ram address ||| (s.ram (address + 1) <<< 8)) % 65536
    else hwAt s.ram address
  else 0xFFFF

/-- Snapshot load phase of EEPROM_Init: DataBuf receives the one's
complement of each snapshot half-word (little endian per byte). -/
def loadSnapshot (flash : Nat → Nat) : Nat → Nat :=
  fun a =>
    if a % 2 = 0 then compl16 (flash (a / 2)) % 256
    else compl16 (flash (a / 2)) / 256 % 256

/-- Write-log replay loop of EEPROM_Init, one log entry per unit of fuel.
Returns the final DataBuf together with the final log_addr (which
EEPROM_Init stores into empty_slot).  Fuel of at least c.logLast strictly
exceeds the iteration count of the C for-loop, so with that much fuel the
loop always terminates through its own exit conditions. -/
def replayAux (c : FeeCfg) (flash : Nat → Nat) :
    Nat → (Nat → Nat) → Nat → (Nat → Nat) × Nat
  | 0, ram, i => (ram, i)
  | fuel + 1, ram, i =>
    if i < c.logLast then
      let e := flash i
      if e = FEE_EMPTY_WORD then (ram, i)
      else if e &&& 0x8000 = 0 then
        replayAux c flash fuel (upd ram (e >>> 8) (e % 256)) (i + 1)
      else if e &&& 0x6000 = 0x6000 then
        if i + 1 ≥ c.logLast then (ram, i + 1)
        else
          let wvalue := compl16 (flash (i + 1))
          if wvalue = 0 then replayAux c flash fuel ram (i + 2)
          else
            let address := ((e &&& 0x1FFF) <<< 1) + FEE_BYTE_RANGE
            if address < c.density then
              replayAux c flash fuel (setHW ram address wvalue) (i + 2)
            else replayAux c flash fuel ram (i + 2)
      else if e &&& 0x4000 ≠ 0 then replayAux c flash fuel ram (i + 1)
      else
        let wvalue := (e &&& 0x2000) >>> 13
        let address := (e &&& 0x1FFF) <<< 1
        if address < c.density then
          replayAux c flash fuel (setHW ram address wvalue) (i + 1)
        else replayAux c flash fuel ram (i + 1)
    else (ram, i)

/-- EEPROM_Init from eeprom.c: load the snapshot into DataBuf, run
eeprom_clear when the magic dword is missing, replay the write log, set
empty_slot to the final log_addr, and return FEE_DENSITY_BYTES. -/
def EEPROM_Init (c : FeeCfg) (s0 : EEState) : Nat × EEState :=
  let ram0 := loadSnapshot s0.flash
  let sA : EEState := { s0 with ram := ram0 }
  let sB := if s0.flash c.logBase + 65536 * s0.flash (c.logBase + 1) = FEE_MAGIC_DWORD
            then sA else eeprom_clear c sA
  let r := replayAux c sB.flash c.logLast ram0 (c.logBase + 2)
  (c.density, { ram := r.1, flash := sB.flash, emptySlot := r.2 })

/-- EEPROM_Erase from eeprom.c: clear, then re-initialize. -/
def EEPROM_Erase (c : FeeCfg) (s : EEState) : EEState :=
  (EEPROM_Init c (eeprom_clear c s)).2

/-! Arithmetic forms of the bit masks used by the log codec. -/

theorem land_shiftLeft_decomp (e m k : Nat) :
    e &&& (m <<< k) = ((e >>> k) &&& m) <<< k := by
  apply Nat.eq_of_testBit_eq
  intro i
  rcases Nat.lt_or_ge i k with h | h
  · simp [Nat.testBit_shiftLeft, Nat.not_le.mpr h]
  · simp [Nat.testBit_shiftLeft, Nat.testBit_shiftRight, h, Nat.add_sub_cancel' h,
      Bool.and_left_comm]

theorem land_8000 (e : Nat) : e &&& 0x8000 = e / 0x8000 % 2 * 0x8000 := by
  have h : (0x8000 : Nat) = 1 <<< 15 := by norm_num [Nat.shiftLeft_eq]
  rw [h, land_shiftLeft_decomp, Nat.and_one_is_mod, Nat.shiftLeft_eq,
    Nat.shiftRight_eq_div_pow]
  norm_num [Nat.shiftLeft_eq]

theorem land_4000 (e : Nat) : e &&& 0x4000 = e / 0x4000 % 2 * 0x4000 := by
  have h : (0x4000 : Nat) = 1 <<< 14 := by norm_num [Nat.shiftLeft_eq]
  rw [h, land_shiftLeft_decomp, Nat.and_one_is_mod, Nat.shiftLeft_eq,
    Nat.shiftRight_eq_div_pow]
  norm_num [Nat.shiftLeft_eq]

theorem land_2000 (e : Nat) : e &&& 0x2000 = e / 0x2000 % 2 * 0x2000 := by
  have h : (0x2000 : Nat) = 1 <<< 13 := by norm_num [Nat.shiftLeft_eq]
  rw [h, land_shiftLeft_decomp, Nat.and_one_is_mod, Nat.shiftLeft_eq,
    Nat.shiftRight_eq_div_pow]
  norm_num [Nat.shiftLeft_eq]

theorem land_6000 (e : Nat) : e &&& 0x6000 = e / 0x2000 % 4 * 0x2000 := by
  have h : (0x6000 : Nat) = 3 <<< 13 := by norm_num [Nat.shiftLeft_eq]
  have h3 : (e >>> 13) &&& 3 = e >>> 13 % 4 := by
    have := Nat.and_pow_two_sub_one_eq_mod (e >>> 13) 2
    norm_num at this
    exact this
  rw [h, land_shiftLeft_decomp, h3, Nat.shiftLeft_eq, Nat.shiftRight_eq_div_pow]

theorem land_1FFF (e : Nat) : e &&& 0x1FFF = e % 0x2000 := by
  have := Nat.and_pow_two_sub_one_eq_mod e 13
  norm_num at this
  exact this

theorem land_FFFE (e : Nat) : e &&& 0xFFFE = e / 2 % 0x8000 * 2 := by
  have h : (0xFFFE : Nat) = 0x7FFF <<< 1 := by norm_num [Nat.shiftLeft_eq]
  have h7 : (e >>> 1) &&& 0x7FFF = e >>> 1 % 0x8000 := by
    have := Nat.and_pow_two_sub_one_eq_mod (e >>> 1) 15
    norm_num at this
    exact this
  rw [h, land_shiftLeft_decomp, h7, Nat.shiftLeft_eq, Nat.shiftRight_eq_div_pow]

/-! Concrete fixtures used by witnesses and scenario theorems. -/

/-- Scenario configuration from the spec: FEE_DENSITY_BYTES = 1024 with a
1024-byte write log (logBase = 512 half-words, first log slot at 514). -/
def cS : FeeCfg := ⟨1024, 1024⟩

/-- Freshly erased store for the concrete scenarios: snapshot erased, magic
programmed, empty_slot at the first log slot, RAM image all zero. -/
def sS : EEState :=
  ⟨fun _ => 0, fun i => if i = 512 then 0x0FEE else if i = 513 then 0x2040 else 0xFFFF, 514⟩

/-- Small configuration for witnesses: density 4 bytes, 8-byte write log
(logBase = 2, logLast = 6). -/
def cW : FeeCfg := ⟨4, 8⟩

/-- Small erased store whose RAM image holds 7 everywhere. -/
def sW : EEState :=
  ⟨fun _ => 7, fun i => if i = 2 then 0x0FEE else if i = 3 then 0x2040 else 0xFFFF, 4⟩

/-- Small store whose snapshot half-word 0 is already programmed. -/
def sW2 : EEState :=
  ⟨fun _ => 7,
   fun i => if i = 0 then 0x1234 else if i = 2 then 0x0FEE else if i = 3 then 0x2040 else 0xFFFF,
   4⟩

/-- Small erased store whose RAM image is 7 at byte 0 and zero elsewhere. -/
def sW3 : EEState :=
  ⟨fun a => if a = 0 then 7 else 0,
   fun i => if i = 2 then 0x0FEE else if i = 3 then 0x2040 else 0xFFFF,
   4⟩

/-! Helper lemmas about the write paths. -/

theorem direct_entry_occupied (s : EEState) (address : Nat)
    (h : s.flash ((address &&& 0xFFFE) / 2) ≠ FEE_EMPTY_WORD) :
    eeprom_write_direct_entry s address = (0, s) := by
  simp [eeprom_write_direct_entry, h]

theorem byte_entry_append (c : FeeCfg) (s : EEState) (address : Nat)
    (h : s.emptySlot < c.logLast) :
    eeprom_write_log_byte_entry c s address =
      (FLASH_COMPLETE,
        { s with flash := upd s.flash s.emptySlot (((address <<< 8) ||| s.ram address) % 65536),
                 emptySlot := s.emptySlot + 1 }) := by
  simp [eeprom_write_log_byte_entry, Nat.not_le.mpr h]

theorem compact_flash_eq (c : FeeCfg) (s : EEState) (i : Nat) :
    (eeprom_compact c s).2.flash i =
      if i < c.density / 2 then
        (if hwAt s.ram (2 * i) ≠ 0 then compl16 (hwAt s.ram (2 * i)) else FEE_EMPTY_WORD)
      else if i = c.logBase then FEE_MAGIC_DWORD % 65536
      else if i = c.logBase + 1 then FEE_MAGIC_DWORD / 65536
      else if i < c.logLast then FEE_EMPTY_WORD
      else s.flash i := by
  simp only [eeprom_compact, eeprom_clear, upd, FeeCfg.logBase, FeeCfg.logLast]
  split_ifs <;> first | rfl | omega

/-! Claim theorems. -/

/-- C1: the spec states that a compaction (and any clear of the persistent
region) leaves empty_slot at the first log slot (byte base + 4, half-word
offset logBase + 2) with *empty_slot = 0xFFFF.  The code instead leaves
empty_slot = FEE_WRITE_LOG_BASE_ADDRESS (half-word offset logBase), where
the low magic half-word 0x0FEE resides, contradicting the declaration
comment of empty_slot ("Pointer to the first available slot within the
write log") and the spec invariant: the next appended log entry programs
the magic slot (final conjunct: on the scenario store, a byte entry after
compaction replaces the magic low half-word 0x0FEE by the entry 0x0000). -/
theorem compact_and_clear_leave_empty_slot_at_magic (c : FeeCfg) (s : EEState) :
    (eeprom_compact c s).2.emptySlot = c.logBase ∧
    (eeprom_compact c s).2.flash c.logBase = 0x0FEE ∧
    (eeprom_clear c s).emptySlot = c.logBase ∧
    (eeprom_clear c s).flash c.logBase = 0x0FEE ∧
    (eeprom_write_log_byte_entry cS (eeprom_compact cS sS).2 0).2.flash 512 = 0 := by
  refine ⟨rfl, ?_, rfl, ?_, by decide⟩
  · rw [compact_flash_eq]
    simp [FeeCfg.logBase, FEE_MAGIC_DWORD]
  · simp [eeprom_clear, upd, FEE_MAGIC_DWORD]

/-- C4: a write at an address ≥ FEE_DENSITY_BYTES returns FLASH_BAD_ADDRESS
and returns the state untouched: neither the RAM image nor the flash
region changes. -/
theorem write_out_of_range_returns_bad_address (c : FeeCfg) (s : EEState)
    (address v : Nat) (h : address ≥ c.density) :
    EEPROM_WriteDataByte c s address v = (FLASH_BAD_ADDRESS, s) ∧
    EEPROM_WriteDataWord c s address v = (FLASH_BAD_ADDRESS, s) := by
  constructor
  · simp [EEPROM_WriteDataByte, h]
  · simp [EEPROM_WriteDataWord, h]

theorem write_out_of_range_returns_bad_address_witness :
    EEPROM_WriteDataByte cW sW 4 0 = (FLASH_BAD_ADDRESS, sW) ∧
    EEPROM_WriteDataWord cW sW 4 0 = (FLASH_BAD_ADDRESS, sW) :=
  write_out_of_range_returns_bad_address cW sW 4 0 (by decide)

/-- C5 counterexample: the skip-same path of a successful write returns the
status 0, not FLASH_COMPLETE; moreover even a flash-programming write can
return 0: a word write at the odd address 1 whose high byte is unchanged
appends the Byte-Entry 0x0108 to the log (slot 4 goes from 0xFFFF to
0x0108) yet returns 0, because the second byte write's skip-same status 0
overrides the first one's FLASH_COMPLETE in the status combination of
EEPROM_WriteDataWord. -/
theorem write_same_value_returns_zero_not_complete :
    (EEPROM_WriteDataByte cW sW 0 7).1 = 0 ∧
    (EEPROM_WriteDataByte cW sW 0 7).1 ≠ FLASH_COMPLETE ∧
    (EEPROM_WriteDataWord cW sW 0 1799).1 = 0 ∧
    (EEPROM_WriteDataWord cW sW 0 1799).1 ≠ FLASH_COMPLETE ∧
    sW2.flash 4 = 0xFFFF ∧
    (EEPROM_WriteDataWord cW sW2 1 0x0708).2.flash 4 = 0x0108 ∧
    (EEPROM_WriteDataWord cW sW2 1 0x0708).1 = 0 ∧
    (EEPROM_WriteDataWord cW sW2 1 0x0708).1 ≠ FLASH_COMPLETE := by
  decide

/-- C5 (amended): successful writes do not all return FLASH_COMPLETE.  An
in-range write of the value the RAM image already holds performs no flash
program or erase, leaves the whole state untouched, and returns the
distinct success status 0 rather than COMPLETE (first two conjuncts: byte
writes and even-address word writes); and a word write at an odd address
below 128 whose snapshot slot is occupied, whose low byte changed and
whose high byte is unchanged, appends one Byte-Entry to the log yet also
returns 0, the second byte write's skip-same status overriding the first
one's FLASH_COMPLETE (third conjunct). -/
theorem write_same_value_skips_flash (c : FeeCfg) (s : EEState) (address v : Nat)
    (hlt : address < c.density) :
    (s.ram address = v → EEPROM_WriteDataByte c s address v = (0, s)) ∧
    (address % 2 = 0 → hwAt s.ram address = v →
      EEPROM_WriteDataWord c s address v = (0, s)) ∧
    (address % 2 = 1 → address < FEE_BYTE_RANGE → address + 1 < c.density →
     s.flash (address / 2) ≠ FEE_EMPTY_WORD →
     s.emptySlot < c.logLast →
     s.ram address ≠ v % 256 → s.ram (address + 1) = (v >>> 8) % 256 →
     EEPROM_WriteDataWord c s address v =
       (0, { ram := upd s.ram address (v % 256),
             flash := upd s.flash s.emptySlot (((address <<< 8) ||| v % 256) % 65536),
             emptySlot := s.emptySlot + 1 })) := by
  refine ⟨?_, ?_, ?_⟩
  · intro h
    simp [EEPROM_WriteDataByte, Nat.not_le.mpr hlt, h]
  · intro he h
    simp [EEPROM_WriteDataWord, Nat.not_le.mpr hlt, he, h]
  · intro hodd hbr hlt1 hocc hroom hlow hhigh
    simp only [FEE_BYTE_RANGE] at hbr
    have hge : ¬(address ≥ c.density) := Nat.not_le.mpr hlt
    have hmaskd : (address &&& 0xFFFE) / 2 = address / 2 := by
      rw [land_FFFE]
      omega
    have hdir : eeprom_write_direct_entry { s with ram := upd s.ram address (v % 256) } address
        = (0, { s with ram := upd s.ram address (v % 256) }) := by
      apply direct_entry_occupied
      simpa [hmaskd] using hocc
    have h1 : EEPROM_WriteDataByte c s address (v % 256) =
        (FLASH_COMPLETE,
         { ram := upd s.ram address (v % 256),
           flash := upd s.flash s.emptySlot (((address <<< 8) ||| v % 256) % 65536),
           emptySlot := s.emptySlot + 1 }) := by
      simp [EEPROM_WriteDataByte, hge, hlow, hdir, byte_entry_append, hroom,
        FEE_BYTE_RANGE, hbr, upd]
    have h2 : EEPROM_WriteDataByte c
        { ram := upd s.ram address (v % 256),
          flash := upd s.flash s.emptySlot (((address <<< 8) ||| v % 256) % 65536),
          emptySlot := s.emptySlot + 1 } (address + 1) ((v >>> 8) % 256)
        = (0, { ram := upd s.ram address (v % 256),
                flash := upd s.flash s.emptySlot (((address <<< 8) ||| v % 256) % 65536),
                emptySlot := s.emptySlot + 1 }) := by
      simp [EEPROM_WriteDataByte, (show ¬(address + 1 ≥ c.density) from Nat.not_le.mpr hlt1),
        upd, hhigh, Nat.succ_ne_self]
    simp only [EEPROM_WriteDataWord]
    rw [if_neg hge, if_pos hodd]
    simp [h1, h2, FLASH_COMPLETE]

theorem write_same_value_skips_flash_witness :
    EEPROM_WriteDataByte cW sW 0 7 = (0, sW) ∧
    EEPROM_WriteDataWord cW sW 0 1799 = (0, sW) ∧
    EEPROM_WriteDataWord cW sW2 1 0x0708 =
      (0, { ram := upd sW2.ram 1 (0x0708 % 256),
            flash := upd sW2.flash sW2.emptySlot (((1 <<< 8) ||| 0x0708 % 256) % 65536),
            emptySlot := sW2.emptySlot + 1 }) :=
  ⟨(write_same_value_skips_flash cW sW 0 7 (by decide)).1 (by decide),
   (write_same_value_skips_flash cW sW 0 1799 (by decide)).2.1 (by decide) (by decide),
   (write_same_value_skips_flash cW sW2 1 0x0708 (by decide)).2.2 (by decide) (by decide)
     (by decide) (by decide) (by decide) (by decide) (by decide)⟩

/-- C7: concrete log encodings.  Starting from the erased scenario store,
write_word(0x200, 1) programs the snapshot directly (slot 0x100 becomes
0xFFFE), after which write_word(0x200, 0) appends the single Word-Encoded 0
entry 0x8000 ||| (0x200 >>> 1) = 0x8100.  Likewise write_word(0x300, 0xBEEF)
programs 0x4110 directly (slot 0x180), after which write_word(0x300, 0xCAFE)
appends the Word-Next pair 0xE000 ||| ((0x300 - 0x80) >>> 1) = 0xE140 and
~0xCAFE = 0x3501. -/
theorem log_encoder_concrete_entries :
    (EEPROM_WriteDataWord cS sS 0x200 1).2.flash 0x100 = 0xFFFE ∧
    (EEPROM_WriteDataWord cS (EEPROM_WriteDataWord cS sS 0x200 1).2 0x200 0).2.flash 514
      = 0x8100 ∧
    (EEPROM_WriteDataWord cS (EEPROM_WriteDataWord cS sS 0x200 1).2 0x200 0).2.emptySlot
      = 515 ∧
    (EEPROM_WriteDataWord cS sS 0x300 0xBEEF).2.flash 0x180 = 0x4110 ∧
    (EEPROM_WriteDataWord cS (EEPROM_WriteDataWord cS sS 0x300 0xBEEF).2 0x300 0xCAFE).2.flash 514
      = 0xE140 ∧
    (EEPROM_WriteDataWord cS (EEPROM_WriteDataWord cS sS 0x300 0xBEEF).2 0x300 0xCAFE).2.flash 515
      = 0x3501 ∧
    (EEPROM_WriteDataWord cS (EEPROM_WriteDataWord cS sS 0x300 0xBEEF).2 0x300 0xCAFE).2.emptySlot
      = 516 := by
  decide

/-- C9: an in-range write whose snapshot half-word is still erased (0xFFFF)
and whose new RAM half-word is 0x0000 (complement 0xFFFF) programs nothing:
it returns FLASH_COMPLETE and only the RAM image changes; snapshot, log and
empty_slot stay untouched. -/
theorem zero_value_direct_write_elided (c : FeeCfg) (s : EEState) (address v : Nat)
    (hlt : address < c.density) :
    (s.flash ((address &&& 0xFFFE) / 2) = FEE_EMPTY_WORD →
     s.ram address ≠ v →
     hwAt (upd s.ram address v) (address &&& 0xFFFE) = 0 →
     EEPROM_WriteDataByte c s address v
       = (FLASH_COMPLETE, { s with ram := upd s.ram address v })) ∧
    (address % 2 = 0 → address < 65536 →
     s.flash (address / 2) = FEE_EMPTY_WORD →
     hwAt s.ram address ≠ 0 →
     EEPROM_WriteDataWord c s address 0
       = (FLASH_COMPLETE, { s with ram := setHW s.ram address 0 })) := by
  constructor
  · intro hfl hne h0
    simp [EEPROM_WriteDataByte, eeprom_write_direct_entry, Nat.not_le.mpr hlt, hne, hfl, h0,
      compl16, FLASH_COMPLETE, FEE_EMPTY_WORD]
  · intro he h16 hfl hne
    have hmask : address &&& 0xFFFE = address := by
      rw [land_FFFE]; omega
    have h0 : hwAt (setHW s.ram address 0) address = 0 := by
      simp [setHW, hwAt, upd]
    simp [EEPROM_WriteDataWord, eeprom_write_direct_entry, Nat.not_le.mpr hlt, he, hne, hmask,
      hfl, h0, compl16, FLASH_COMPLETE, FEE_EMPTY_WORD]

theorem zero_value_direct_write_elided_witness :
    EEPROM_WriteDataByte cW sW3 0 0 = (FLASH_COMPLETE, { sW3 with ram := upd sW3.ram 0 0 }) ∧
    EEPROM_WriteDataWord cW sW3 0 0 = (FLASH_COMPLETE, { sW3 with ram := setHW sW3.ram 0 0 }) :=
  ⟨(zero_value_direct_write_elided cW sW3 0 0 (by decide)).1 (by decide) (by decide)
     (by decide),
   (zero_value_direct_write_elided cW sW3 0 0 (by decide)).2 (by decide) (by decide)
     (by decide) (by decide)⟩

/-- C10: EEPROM_ReadDataWord uses the bound density - 1, so every address
at or above density - 1 reads as the canonical 0xFFFF; at density - 1
itself a byte read still serves the RAM image while the word read does
not; byte reads are out of range only from density upward. -/
theorem read_word_upper_bound (c : FeeCfg) (s : EEState) (hpos : 0 < c.density) :
    (∀ address, c.density - 1 ≤ address → EEPROM_ReadDataWord c s address = 0xFFFF) ∧
    EEPROM_ReadDataWord c s (c.density - 1) = 0xFFFF ∧
    EEPROM_ReadDataByte c s (c.density - 1) = s.ram (c.density - 1) ∧
    (∀ address, c.density ≤ address → EEPROM_ReadDataByte c s address = 0xFF) := by
  have hlt : c.density - 1 < c.density := by omega
  refine ⟨?_, ?_, ?_, ?_⟩
  · intro a ha
    simp [EEPROM_ReadDataWord, Nat.not_lt.mpr ha]
  · simp [EEPROM_ReadDataWord]
  · simp [EEPROM_ReadDataByte, hlt]
  · intro a ha
    simp [EEPROM_ReadDataByte, Nat.not_lt.mpr ha]

theorem read_word_upper_bound_witness :
    EEPROM_ReadDataWord cW sW 3 = 0xFFFF ∧
    EEPROM_ReadDataByte cW sW 3 = sW.ram 3 ∧
    EEPROM_ReadDataByte cW sW 4 = 0xFF :=
  ⟨(read_word_upper_bound cW sW (by decide)).1 3 (by decide),
   (read_word_upper_bound cW sW (by decide)).2.2.1,
   (read_word_upper_bound cW sW (by decide)).2.2.2 4 (by decide)⟩

/-- Log fragment for the torn-write witness: a Word-Next primary at slot 4
whose value word was never programmed. -/
def fTorn : Nat → Nat := fun j => if j = 4 then 0xE140 else 0xFFFF

/-- Log fragment for the Word-Encoded witness: the entry 0xA001 at slot 3. -/
def fEnc : Nat → Nat := fun j => if j = 3 then 0xA001 else 0xFFFF

/-- C3: during replay, a Word-Next primary entry (0xE000-0xFFBF) whose
following half-word is still erased (0xFFFF, decoding to ~0xFFFF = 0x0000)
is treated as a torn write: it is skipped without modifying any RAM image
byte and replay continues with the entries after the torn pair; hence when
nothing follows the torn entry the replayed RAM image equals the image
from before that write. -/
theorem replay_skips_torn_word_next (c : FeeCfg) (flash ram : Nat → Nat)
    (fuel i : Nat) (hi : i < c.logLast) (hnext : i + 1 < c.logLast)
    (hlo : 0xE000 ≤ flash i) (hhi : flash i ≤ 0xFFBF)
    (hv : flash (i + 1) = 0xFFFF) :
    replayAux c flash (fuel + 1) ram i = replayAux c flash fuel ram (i + 2) ∧
    (flash (i + 2) = 0xFFFF → (replayAux c flash (fuel + 1) ram i).1 = ram) := by
  have h8 : flash i &&& 0x8000 ≠ 0 := by rw [land_8000]; omega
  have h6 : flash i &&& 0x6000 = 0x6000 := by rw [land_6000]; omega
  have hne : flash i ≠ 0xFFFF := by omega
  have hmain : replayAux c flash (fuel + 1) ram i = replayAux c flash fuel ram (i + 2) := by
    simp [replayAux, hi, hne, h8, h6, Nat.not_le.mpr hnext, hv, compl16, FEE_EMPTY_WORD]
  refine ⟨hmain, fun h2 => ?_⟩
  rw [hmain]
  cases fuel with
  | zero => simp [replayAux]
  | succ k =>
    simp only [replayAux]
    by_cases h : i + 2 < c.logLast
    · simp [h, h2, FEE_EMPTY_WORD]
    · simp [h]

theorem replay_skips_torn_word_next_witness :
    replayAux cW fTorn (1 + 1) (fun _ => 0) 4 = replayAux cW fTorn 1 (fun _ => 0) (4 + 2) ∧
    (fTorn (4 + 2) = 0xFFFF → (replayAux cW fTorn (1 + 1) (fun _ => 0) 4).1 = fun _ => 0) :=
  replay_skips_torn_word_next cW fTorn (fun _ => 0) 1 4 (by decide) (by decide) (by decide)
    (by decide) (by decide)

/-- C8: replay of a Word-Encoded entry E in [0x8000, 0xBFFF] sets the RAM
half-word at address (E &&& 0x1FFF) <<< 1 to 0 (for E < 0xA000) or 1 (for
E ≥ 0xA000) when that address is below density, and discards the entry
otherwise; in both cases replay continues with the following slot rather
than aborting. -/
theorem replay_word_encoded_entry (c : FeeCfg) (flash ram : Nat → Nat)
    (fuel i : Nat) (hi : i < c.logLast)
    (hlo : 0x8000 ≤ flash i) (hhi : flash i ≤ 0xBFFF) :
    replayAux c flash (fuel + 1) ram i =
      if (flash i &&& 0x1FFF) <<< 1 < c.density then
        replayAux c flash fuel
          (setHW ram ((flash i &&& 0x1FFF) <<< 1) (if 0xA000 ≤ flash i then 1 else 0)) (i + 1)
      else replayAux c flash fuel ram (i + 1) := by
  have hne : flash i ≠ 0xFFFF := by omega
  have h8 : flash i &&& 0x8000 ≠ 0 := by rw [land_8000]; omega
  have h6 : ¬(flash i &&& 0x6000 = 0x6000) := by rw [land_6000]; omega
  have h4 : flash i &&& 0x4000 = 0 := by rw [land_4000]; omega
  have hpow : (2 : Nat) ^ 13 = 8192 := by norm_num
  have h2 : (flash i &&& 0x2000) >>> 13 = if 0xA000 ≤ flash i then 1 else 0 := by
    rw [land_2000, Nat.shiftRight_eq_div_pow, hpow]
    split <;> omega
  simp [replayAux, hi, hne, h8, h6, h4, h2, FEE_EMPTY_WORD]

theorem replay_word_encoded_entry_witness :
    replayAux cW fEnc (1 + 1) (fun _ => 0) 3 =
      if (fEnc 3 &&& 0x1FFF) <<< 1 < cW.density then
        replayAux cW fEnc 1
          (setHW (fun _ => 0) ((fEnc 3 &&& 0x1FFF) <<< 1) (if 0xA000 ≤ fEnc 3 then 1 else 0))
          (3 + 1)
      else replayAux cW fEnc 1 (fun _ => 0) (3 + 1) :=
  replay_word_encoded_entry cW fEnc (fun _ => 0) 1 3 (by decide) (by decide) (by decide)

/-- C2: compaction preservation.  For a RAM image of byte-sized cells,
forcing a compaction and then running EEPROM_Init reloads a RAM image
equal to the original at every address of the store: the snapshot holds
the complement of every non-zero half-word (complement-loading restores
it), erased snapshot words decode to zero, the rewritten magic passes the
init check, and the emptied log replays as a no-op. -/
theorem compact_then_init_preserves_ram (c : FeeCfg) (s : EEState)
    (heven : c.density % 2 = 0) (hpos : 0 < c.density)
    (hbytes : ∀ a, a < c.density → s.ram a < 256) :
    ∀ a, a < c.density →
      (EEPROM_Init c (eeprom_compact c s).2).2.ram a = s.ram a := by
  intro a ha
  set sc := (eeprom_compact c s).2 with hsc
  have hm1 : sc.flash c.logBase = 0x0FEE := by
    rw [hsc, compact_flash_eq]
    simp [FeeCfg.logBase, FEE_MAGIC_DWORD]
  have hm2 : sc.flash (c.logBase + 1) = 0x2040 := by
    rw [hsc, compact_flash_eq]
    rw [if_neg (by simp only [FeeCfg.logBase]; omega), if_neg (by omega), if_pos rfl]
    norm_num [FEE_MAGIC_DWORD]
  have hmagic : sc.flash c.logBase + 65536 * sc.flash (c.logBase + 1) = FEE_MAGIC_DWORD := by
    rw [hm1, hm2]
    norm_num [FEE_MAGIC_DWORD]
  have hk : c.logLast = (c.logLast - 1) + 1 := by
    simp only [FeeCfg.logLast]
    omega
  have hreplay : replayAux c sc.flash c.logLast (loadSnapshot sc.flash) (c.logBase + 2)
      = (loadSnapshot sc.flash, c.logBase + 2) := by
    rw [hk]
    simp only [replayAux]
    by_cases hlt : c.logBase + 2 < c.logLast
    · have hff : sc.flash (c.logBase + 2) = FEE_EMPTY_WORD := by
        rw [hsc, compact_flash_eq]
        rw [if_neg (by simp only [FeeCfg.logBase]; omega), if_neg (by omega),
          if_neg (by omega), if_pos hlt]
      simp [hlt, hff]
    · simp [hlt]
  have hup : (EEPROM_Init c sc).2.ram a = loadSnapshot sc.flash a := by
    simp only [EEPROM_Init, hmagic, if_pos]
    rw [hreplay]
  rw [hup]
  have hai : a / 2 < c.density / 2 := by omega
  have hb0 : s.ram (2 * (a / 2)) < 256 := hbytes _ (by omega)
  have hb1 : s.ram (2 * (a / 2) + 1) < 256 := hbytes _ (by omega)
  have hcompl : compl16 (sc.flash (a / 2)) = hwAt s.ram (2 * (a / 2)) := by
    rw [hsc, compact_flash_eq, if_pos hai]
    simp only [hwAt, compl16, FEE_EMPTY_WORD]
    split <;> omega
  simp only [loadSnapshot]
  by_cases hpar : a % 2 = 0
  · rw [if_pos hpar, hcompl]
    have h2a : 2 * (a / 2) = a := by omega
    rw [h2a] at hb0 ⊢
    simp only [hwAt]
    omega
  · rw [if_neg hpar, hcompl]
    have h2a : 2 * (a / 2) + 1 = a := by omega
    rw [h2a] at hb1
    simp only [hwAt, h2a]
    omega

theorem compact_then_init_preserves_ram_witness :
    (EEPROM_Init cW (eeprom_compact cW sW3).2).2.ram 0 = sW3.ram 0 :=
  compact_then_init_preserves_ram cW sW3 (by decide) (by decide)
    (fun a _ => by simp only [sW3]; split <;> omega) 0 (by decide)

/-- C6: a word write at an odd in-range address is performed as two byte
writes (low byte at addr, high byte at addr + 1, statuses combined as in
the C); a word write at an even address below 128 whose snapshot slot is
occupied emits one Byte-Entry per changed byte: a single log entry when
exactly one byte changed, and two separate entries (address then
address + 1, advancing empty_slot by two) when both bytes changed. -/
theorem word_write_odd_split_and_byte_entries
    (c : FeeCfg) (s : EEState) (address v : Nat) :
    (address < c.density → address % 2 = 1 →
      EEPROM_WriteDataWord c s address v =
        (let r1 := EEPROM_WriteDataByte c s address (v % 256)
         let r2 := EEPROM_WriteDataByte c r1.2 (address + 1) ((v >>> 8) % 256)
         (if r2.1 ≠ FLASH_COMPLETE then r2.1 else r1.1, r2.2))) ∧
    (address < c.density → address % 2 = 0 → address < FEE_BYTE_RANGE →
     s.flash (address / 2) ≠ FEE_EMPTY_WORD →
     s.emptySlot + 1 < c.logLast →
     s.ram address < 256 → v < 65536 →
     ((s.ram address ≠ v % 256 → s.ram (address + 1) = v / 256 →
        EEPROM_WriteDataWord c s address v =
          (FLASH_COMPLETE,
           { ram := setHW s.ram address v,
             flash := upd s.flash s.emptySlot (((address <<< 8) ||| v % 256) % 65536),
             emptySlot := s.emptySlot + 1 })) ∧
      (s.ram address = v % 256 → s.ram (address + 1) ≠ v / 256 →
        EEPROM_WriteDataWord c s address v =
          (FLASH_COMPLETE,
           { ram := setHW s.ram address v,
             flash := upd s.flash s.emptySlot ((((address + 1) <<< 8) ||| v / 256) % 65536),
             emptySlot := s.emptySlot + 1 })) ∧
      (s.ram address ≠ v % 256 → s.ram (address + 1) ≠ v / 256 →
        EEPROM_WriteDataWord c s address v =
          (FLASH_COMPLETE,
           { ram := setHW s.ram address v,
             flash := upd (upd s.flash s.emptySlot (((address <<< 8) ||| v % 256) % 65536))
                        (s.emptySlot + 1) ((((address + 1) <<< 8) ||| v / 256) % 65536),
             emptySlot := s.emptySlot + 2 })))) := by
  constructor
  · intro hlt hodd
    simp only [EEPROM_WriteDataWord]
    rw [if_neg (by omega : ¬ address ≥ c.density), if_pos hodd]
  · intro hlt heven hbr hocc hroom hb0 hv
    have hge : ¬(address ≥ c.density) := by omega
    have hodd : ¬(address % 2 = 1) := by omega
    have hroom1 : s.emptySlot < c.logLast := by omega
    have hmask : address &&& 0xFFFE = address := by
      rw [land_FFFE]
      simp only [FEE_BYTE_RANGE] at hbr
      omega
    have hp8 : (2 : Nat) ^ 8 = 256 := by norm_num
    have hOldLo : hwAt s.ram address % 256 = s.ram address := by
      simp only [hwAt]
      omega
    have hOldHi : hwAt s.ram address >>> 8 = s.ram (address + 1) := by
      rw [Nat.shiftRight_eq_div_pow, hp8]
      simp only [hwAt]
      omega
    have hVHi : v >>> 8 = v / 256 := by
      rw [Nat.shiftRight_eq_div_pow, hp8]
    have hrA : setHW s.ram address v address = v % 256 := by
      simp [setHW, upd]
    have hrB : setHW s.ram address v (address + 1) = v / 256 := by
      simp [setHW, upd]
      omega
    have hdir : eeprom_write_direct_entry { s with ram := setHW s.ram address v } address
        = (0, { s with ram := setHW s.ram address v }) := by
      apply direct_entry_occupied
      simpa [hmask] using hocc
    refine ⟨fun hlow hhigh => ?_, fun hlow hhigh => ?_, fun hlow hhigh => ?_⟩
    · have hneq : hwAt s.ram address ≠ v := by
        intro hc
        simp only [hwAt] at hc
        omega
      simp [EEPROM_WriteDataWord, hge, hodd, hneq, hdir, hOldLo, hOldHi, hVHi, hlow, hhigh,
        hrA, hrB, byte_entry_append, hroom1, hroom, hbr]
    · have hneq : hwAt s.ram address ≠ v := by
        intro hc
        simp only [hwAt] at hc
        omega
      simp [EEPROM_WriteDataWord, hge, hodd, hneq, hdir, hOldLo, hOldHi, hVHi, hlow, hhigh,
        hrA, hrB, byte_entry_append, hroom1, hroom, hbr]
    · have hneq : hwAt s.ram address ≠ v := by
        intro hc
        simp only [hwAt] at hc
        omega
      simp [EEPROM_WriteDataWord, hge, hodd, hneq, hdir, hOldLo, hOldHi, hVHi, hlow, hhigh,
        hrA, hrB, byte_entry_append, hroom1, hroom, hbr]

theorem word_write_odd_split_and_byte_entries_witness :
    EEPROM_WriteDataWord cW sW2 0 0x0102 =
      (FLASH_COMPLETE,
       { ram := setHW sW2.ram 0 0x0102,
         flash := upd (upd sW2.flash sW2.emptySlot (((0 <<< 8) ||| 0x0102 % 256) % 65536))
                    (sW2.emptySlot + 1) ((((0 + 1) <<< 8) ||| 0x0102 / 256) % 65536),
         emptySlot := sW2.emptySlot + 2 }) :=
  ((word_write_odd_split_and_byte_entries cW sW2 0 0x0102).2 (by decide) (by decide)
    (by decide) (by decide) (by decide) (by decide) (by decide)).2.2 (by decide) (by decide)

end Fee
